import Mathlib

/-!
Verification of the DMView fog-of-war engine against its design document.

The development shallowly embeds the Python sources of the repository:

* `dmview/map_canvas.py` — `MapRenderer` (compositing pipeline and its cache
  fields), `FogEditor` (brush / rectangle / reveal-all / hide-all mask edits),
  `calculate_scale`, and the stateless coordinate transforms `screen_to_map`
  and `map_to_screen`;
* `dmview/dm_view.py` — the brush-stroke interpolation of
  `DMView._continue_brush` and the per-sample `Application.update_fog` calls
  a stroke performs;
* `dmview/app.py` — `Application.update_fog` (mask propagation and
  persistence) and `Application.pan_map` (pan clamping);
* `dmview/models.py` — `Map`, `Session.active_map`, `Session.remove_map`.

Python `int` is embedded as `ℤ`, Python `float` as `ℚ` (arithmetic is exact;
the float-specific rounding of intermediate results is idealized away), and
`int(x)` — truncation toward zero — as `pyInt`.  PIL raster images become
structures with a total pixel function together with explicit width and
height; library primitives that the repository merely calls (resampling
filters) are either modelled pointwise (nearest-neighbour sampling, alpha
compositing per the documented straight-alpha over operator) or passed in as
function parameters constrained only by the properties the library
guarantees (LANCZOS resampling returns an image of the requested size).
-/

namespace DMView

/-! ## Python numeric primitives -/

/-- Python `int(q)` on an exact rational: truncation toward zero.
`Int.tdiv` is T-division, which matches CPython's `int()` conversion. -/
def pyInt (q : ℚ) : ℤ := q.num.tdiv q.den

/-- Python `round` composed with `int` coercion to a pixel channel value,
used by the alpha-compositing model. -/
def pyRound (q : ℚ) : ℕ := (round q).toNat

/-! ## Raster images

`GrayImg` models a PIL mode-"L" image (the fog mask), `Img` a mode-"RGBA"
image.  The pixel function is total; only the first `w × h` entries are
meaningful and all operations below either ignore or preserve the rest. -/

/-- One RGBA pixel with natural-number channels. -/
@[ext]
structure Pixel where
  r : ℕ
  g : ℕ
  b : ℕ
  a : ℕ
  deriving DecidableEq, Repr

/-- Single-channel (mode "L") raster, the type of fog masks. -/
@[ext]
structure GrayImg where
  w : ℕ
  h : ℕ
  px : ℕ → ℕ → ℕ

/-- RGBA raster, the type of map surfaces and composited frames. -/
@[ext]
structure Img where
  w : ℕ
  h : ℕ
  px : ℕ → ℕ → Pixel

/-! ## Fog mask editing (`FogEditor`, map_canvas.py lines 155-216)

`ImageDraw.Draw` primitives are modelled pointwise: a fill writes the fill
colour to every in-bounds pixel of the drawn region and leaves every other
pixel alone.  PIL clips drawing to the image automatically and includes both
corners of the bounding box in the drawn region. -/

/-- Model of `ImageDraw.rectangle([left, top, right, bottom], fill)`:
fill every in-bounds pixel with `left ≤ i ≤ right` and `top ≤ j ≤ bottom`. -/
def drawRectangle (m : GrayImg) (left top right bottom : ℤ) (fill : ℕ) : GrayImg :=
  ⟨m.w, m.h, fun i j =>
    if i < m.w ∧ j < m.h ∧ left ≤ (i : ℤ) ∧ (i : ℤ) ≤ right ∧ top ≤ (j : ℤ) ∧ (j : ℤ) ≤ bottom
    then fill else m.px i j⟩

/-- Model of `ImageDraw.ellipse([x1, y1, x2, y2], fill)`: fill the in-bounds
pixels inside the ellipse inscribed in the bounding box.  Membership is the
standard ellipse inequality, written with doubled coordinates so it stays in
`ℤ`; for the symmetric box `[x - r, y - r, x + r, y + r]` it reduces to
`(i - x)² + (j - y)² ≤ r²`. -/
def drawEllipse (m : GrayImg) (x1 y1 x2 y2 : ℤ) (fill : ℕ) : GrayImg :=
  ⟨m.w, m.h, fun i j =>
    if i < m.w ∧ j < m.h ∧
        ((2 * (i : ℤ) - (x1 + x2)) * (y2 - y1)) ^ 2 + ((2 * (j : ℤ) - (y1 + y2)) * (x2 - x1)) ^ 2
          ≤ ((x2 - x1) * (y2 - y1)) ^ 2
    then fill else m.px i j⟩

namespace FogEditor

/-- Embedding of `FogEditor.apply_brush(x, y, radius, reveal)`:
`draw.ellipse([x - radius, y - radius, x + radius, y + radius], fill=color)`
with `color = 255 if reveal else 0`. -/
def apply_brush (m : GrayImg) (x y radius : ℤ) (reveal : Bool) : GrayImg :=
  let color := if reveal then 255 else 0
  drawEllipse m (x - radius) (y - radius) (x + radius) (y + radius) color

/-- Embedding of `FogEditor.apply_rectangle(x1, y1, x2, y2, reveal)`:
corners are normalized first, then the rectangle is filled. -/
def apply_rectangle (m : GrayImg) (x1 y1 x2 y2 : ℤ) (reveal : Bool) : GrayImg :=
  let color := if reveal then 255 else 0
  let left := min x1 x2
  let top := min y1 y2
  let right := max x1 x2
  let bottom := max y1 y2
  drawRectangle m left top right bottom color

/-- Embedding of `FogEditor.reveal_all()`:
`draw.rectangle([0, 0, width, height], fill=255)`. -/
def reveal_all (m : GrayImg) : GrayImg :=
  drawRectangle m 0 0 (m.w : ℤ) (m.h : ℤ) 255

/-- Embedding of `FogEditor.hide_all()`:
`draw.rectangle([0, 0, width, height], fill=0)`. -/
def hide_all (m : GrayImg) : GrayImg :=
  drawRectangle m 0 0 (m.w : ℤ) (m.h : ℤ) 0

end FogEditor

/-! ## Coordinate transforms (map_canvas.py lines 235-284) -/

/-- Embedding of `screen_to_map`:
`map_x = int((screen_x - offset_x) / scale + pan_x)` and likewise for y.
Note that the pan is added before the single `int()` conversion. -/
def screen_to_map (screen_x screen_y : ℤ) (scale : ℚ) (pan_x pan_y : ℤ)
    (viewport_offset : ℤ × ℤ) : ℤ × ℤ :=
  let offset_x := viewport_offset.1
  let offset_y := viewport_offset.2
  (pyInt (((screen_x - offset_x : ℤ) : ℚ) / scale + (pan_x : ℚ)),
   pyInt (((screen_y - offset_y : ℤ) : ℚ) / scale + (pan_y : ℚ)))

/-- Embedding of `map_to_screen`:
`screen_x = int((map_x - pan_x) * scale + offset_x)` and likewise for y. -/
def map_to_screen (map_x map_y : ℤ) (scale : ℚ) (pan_x pan_y : ℤ)
    (viewport_offset : ℤ × ℤ) : ℤ × ℤ :=
  let offset_x := viewport_offset.1
  let offset_y := viewport_offset.2
  (pyInt (((map_x - pan_x : ℤ) : ℚ) * scale + (offset_x : ℚ)),
   pyInt (((map_y - pan_y : ℤ) : ℚ) * scale + (offset_y : ℚ)))

/-- Transcription of the specification's formula for `screenToMap`
(floor semantics, pan added after flooring), kept separate from the
source embedding so the two can be compared. -/
def screenToMapSpec (screen_x screen_y : ℤ) (scale : ℚ) (pan_x pan_y : ℤ)
    (viewport_offset : ℤ × ℤ) : ℤ × ℤ :=
  (⌊((screen_x - viewport_offset.1 : ℤ) : ℚ) / scale⌋ + pan_x,
   ⌊((screen_y - viewport_offset.2 : ℤ) : ℚ) / scale⌋ + pan_y)

/-! ## Brush stroke interpolation (dm_view.py, `DMView._continue_brush`) -/

/-- Transcription of the specification's stamp-count formula
`stepCount = max(1, round(d / step))`, kept separate from the source
embedding so the two can be compared. -/
def specStepCount (d step : ℚ) : ℕ :=
  max 1 (round (d / step)).toNat

/-- Embedding of the interpolation loop of `DMView._continue_brush` (lines
486-505): given the last sampled map position, the current map position and
the brush radius, return the list of stamp centres, in order.

Source correspondence: `dist = math.hypot(dx, dy)`; `step = max(1,
int(brush_radius * 0.5))`; `steps = max(1, int(dist / step))`.  Since `step`
is a positive integer, `int(dist / step) = Nat.sqrt (dx² + dy²) / step`
(`⌊√n / k⌋ = ⌊⌊√n⌋ / k⌋` for a positive integer `k`).  Each loop iteration
`i = 1 .. steps` stamps at `(int(last_x + dx * t), int(last_y + dy * t))`
with `t = i / steps`; when `dist <= 0` a single stamp is placed at the
current position. -/
def continueBrushStamps (last_x last_y map_x map_y : ℤ) (brush_radius : ℕ) :
    List (ℤ × ℤ) :=
  let dx := map_x - last_x
  let dy := map_y - last_y
  let dist2 : ℕ := (dx ^ 2 + dy ^ 2).toNat
  if dist2 = 0 then [(map_x, map_y)]
  else
    let step : ℕ := max 1 (brush_radius / 2)
    let steps : ℕ := max 1 (Nat.sqrt dist2 / step)
    (List.range steps).map fun i =>
      (pyInt ((last_x : ℚ) + (dx : ℚ) * ((i + 1 : ℕ) : ℚ) / (steps : ℚ)),
       pyInt ((last_y : ℚ) + (dy : ℚ) * ((i + 1 : ℕ) : ℚ) / (steps : ℚ)))

/-! ## PIL image primitives used by `MapRenderer.render` -/

/-- Model of `PIL.Image.alpha_composite` on one pixel: the straight-alpha
"over" operator, `outA = srcA + dstA·(255 − srcA)/255` and
`outC = (srcC·srcA + dstC·dstA·(255 − srcA)/255) / outA`, computed exactly
over `ℚ` and rounded per channel; a fully transparent result is black. -/
def compositePixel (dst src : Pixel) : Pixel :=
  let blend : ℚ := (dst.a : ℚ) * (255 - (src.a : ℚ)) / 255
  let outA : ℚ := (src.a : ℚ) + blend
  if outA = 0 then ⟨0, 0, 0, 0⟩
  else
    ⟨pyRound (((src.r : ℚ) * src.a + (dst.r : ℚ) * blend) / outA),
     pyRound (((src.g : ℚ) * src.a + (dst.g : ℚ) * blend) / outA),
     pyRound (((src.b : ℚ) * src.a + (dst.b : ℚ) * blend) / outA),
     pyRound outA⟩

/-- Model of `PIL.Image.alpha_composite(dst, src)` (same-size images). -/
def alphaComposite (dst src : Img) : Img :=
  ⟨dst.w, dst.h, fun i j => compositePixel (dst.px i j) (src.px i j)⟩

/-- Model of `Image.crop((left, top, right, bottom))`: the result has size
`(right − left) × (bottom − top)` and pixel `(i, j)` reads source pixel
`(left + i, top + j)`. -/
def cropImg (img : Img) (left top right bottom : ℤ) : Img :=
  ⟨(right - left).toNat, (bottom - top).toNat,
   fun i j => img.px (left + i).toNat (top + j).toNat⟩

/-- Model of `Image.new("RGBA", (w, h), c)`. -/
def newRGBA (w h : ℕ) (c : Pixel) : Img :=
  ⟨w, h, fun _ _ => c⟩

/-- Model of `bg.paste(fg, (x, y))` for RGBA images (channels are replaced,
alpha included, inside the pasted region). -/
def pasteImg (bg fg : Img) (x y : ℕ) : Img :=
  ⟨bg.w, bg.h, fun i j =>
    if x ≤ i ∧ i < x + fg.w ∧ y ≤ j ∧ j < y + fg.h
    then fg.px (i - x) (j - y) else bg.px i j⟩

/-- The two resampling filters `render` takes from PIL.  `resizeImage`
stands for `Image.resize(size, Image.LANCZOS)` on the map surface and
`resizeMask` for `Image.resize(size, Image.NEAREST)` on the fog mask; both
are opaque library code, so theorems assume of them only what PIL
guarantees (requested output size; nearest-neighbour reads source pixels). -/
structure ResizeEnv where
  resizeImage : Img → ℕ → ℕ → Img
  resizeMask : GrayImg → ℕ → ℕ → GrayImg

/-! ## `MapRenderer` (map_canvas.py lines 8-121) -/

/-- State of a `MapRenderer` instance: the fields assigned in `__init__`
(`map_image`, `fog_mask`, `scale`, `_cached_render`, `_cache_valid`). -/
structure MapRenderer where
  map_image : Option Img
  fog_mask : Option GrayImg
  scale : ℚ
  cached_render : Option Img
  cache_valid : Bool

namespace MapRenderer

/-- Embedding of `MapRenderer.__init__`. -/
def init : MapRenderer :=
  { map_image := none, fog_mask := none, scale := 1,
    cached_render := none, cache_valid := false }

/-- Embedding of `MapRenderer.set_map` (the RGBA / L conversions are
identities in this model). -/
def set_map (r : MapRenderer) (m : Img) (f : GrayImg) : MapRenderer :=
  { r with map_image := some m, fog_mask := some f, cache_valid := false }

/-- Embedding of `MapRenderer.set_scale`. -/
def set_scale (r : MapRenderer) (scale : ℚ) : MapRenderer :=
  if r.scale ≠ scale then { r with scale := scale, cache_valid := false } else r

/-- Embedding of `MapRenderer.invalidate_cache`. -/
def invalidate_cache (r : MapRenderer) : MapRenderer :=
  { r with cache_valid := false }

/-- Scaled dimension `int(dim * scale)` used by `render`. -/
def scaledDim (dim : ℕ) (scale : ℚ) : ℕ :=
  (pyInt ((dim : ℚ) * scale)).toNat

/-- The crop / centre / paste tail of `MapRenderer.render` (lines 82-119),
shared verbatim by the fog pipeline and by the fog-free comparison image:
compute the crop window from the scaled pan, bail out on an empty window,
re-crop and centre when the scaled image is smaller than the viewport along
an axis, and paste onto the neutral `(30, 30, 30, 255)` background. -/
def assembleFrame (composited : Img) (scaled_w scaled_h viewport_w viewport_h : ℕ)
    (left0 top0 : ℤ) : Option Img :=
  let right : ℤ := min (left0 + (viewport_w : ℤ)) (scaled_w : ℤ)
  let bottom : ℤ := min (top0 + (viewport_h : ℤ)) (scaled_h : ℤ)
  let left : ℤ := max 0 (min left0 ((scaled_w : ℤ) - 1))
  let top : ℤ := max 0 (min top0 ((scaled_h : ℤ) - 1))
  if right ≤ left ∨ bottom ≤ top then none
  else
    let cropped := cropImg composited left top right bottom
    let paste_x : ℕ := if cropped.w < viewport_w then (viewport_w - cropped.w) / 2 else 0
    let paste_y : ℕ := if cropped.h < viewport_h then (viewport_h - cropped.h) / 2 else 0
    let paste_x' := if scaled_w < viewport_w then (viewport_w - scaled_w) / 2 else paste_x
    let left' : ℤ := if scaled_w < viewport_w then 0 else left
    let right' : ℤ := if scaled_w < viewport_w then (scaled_w : ℤ) else right
    let cropped' := if scaled_w < viewport_w then cropImg composited 0 top (scaled_w : ℤ) bottom
      else cropped
    let paste_y' := if scaled_h < viewport_h then (viewport_h - scaled_h) / 2 else paste_y
    let cropped'' := if scaled_h < viewport_h then cropImg composited left' 0 right' (scaled_h : ℤ)
      else cropped'
    some (pasteImg (newRGBA viewport_w viewport_h ⟨30, 30, 30, 255⟩) cropped'' paste_x' paste_y')

/-- Embedding of the body of `MapRenderer.render` (lines 54-121) once the
`None` guards have passed.  The `let` chain follows the source order:
scale map and fog, build the inverted opacity-scaled fog overlay, composite,
crop using the scaled pan, re-crop and centre when the scaled map is smaller
than the viewport along an axis, and paste onto the neutral background. -/
def renderCore (env : ResizeEnv) (map_image : Img) (fog_mask : GrayImg)
    (scale : ℚ) (viewport_size : ℕ × ℕ) (pan_x pan_y : ℤ)
    (is_dm_view : Bool) : Option Img :=
  let viewport_w := viewport_size.1
  let viewport_h := viewport_size.2
  let scaled_w := scaledDim map_image.w scale
  let scaled_h := scaledDim map_image.h scale
  let scaled_map := env.resizeImage map_image scaled_w scaled_h
  let scaled_fog := env.resizeMask fog_mask scaled_w scaled_h
  let fog_opacity : ℕ := if is_dm_view then 120 else 255
  let inverted_fog : GrayImg :=
    ⟨scaled_fog.w, scaled_fog.h, fun i j => 255 - scaled_fog.px i j⟩
  let alpha_mask : GrayImg :=
    ⟨inverted_fog.w, inverted_fog.h, fun i j => inverted_fog.px i j * fog_opacity / 255⟩
  let fog_rgba : Img := ⟨scaled_w, scaled_h, fun i j => ⟨0, 0, 0, alpha_mask.px i j⟩⟩
  let composited := alphaComposite scaled_map fog_rgba
  let scaled_pan_x := pyInt ((pan_x : ℚ) * scale)
  let scaled_pan_y := pyInt ((pan_y : ℚ) * scale)
  assembleFrame composited scaled_w scaled_h viewport_w viewport_h scaled_pan_x scaled_pan_y

/-- Embedding of `MapRenderer.render`: the early return when no map or mask
is loaded, then `renderCore`.  The method assigns no instance attribute, so
it returns the `MapRenderer` state unchanged alongside its result. -/
def render (env : ResizeEnv) (r : MapRenderer) (viewport_size : ℕ × ℕ)
    (pan_x pan_y : ℤ) (is_dm_view : Bool) : Option Img × MapRenderer :=
  match r.map_image, r.fog_mask with
  | some m, some f =>
    (renderCore env m f r.scale viewport_size pan_x pan_y is_dm_view, r)
  | _, _ => (none, r)

/-- The specification's "plain scaled and cropped map surface": the same
geometry as `renderCore` (same scaled size, crop window, centring and
neutral background) applied to the resampled surface with no fog layer,
kept separate from the source embedding so the two can be compared. -/
def plainScaledCrop (env : ResizeEnv) (map_image : Img) (scale : ℚ)
    (viewport_size : ℕ × ℕ) (pan_x pan_y : ℤ) : Option Img :=
  let viewport_w := viewport_size.1
  let viewport_h := viewport_size.2
  let scaled_w := scaledDim map_image.w scale
  let scaled_h := scaledDim map_image.h scale
  let scaled_map := env.resizeImage map_image scaled_w scaled_h
  assembleFrame scaled_map scaled_w scaled_h viewport_w viewport_h
    (pyInt ((pan_x : ℚ) * scale)) (pyInt ((pan_y : ℚ) * scale))

end MapRenderer

/-! ## Fog propagation during a brush stroke (app.py / dm_view.py)

`Application.update_fog` (app.py lines 432-446) stores the mask, refreshes
the DM view, pushes the mask to the player view, and saves it through the
session manager.  `DMView._start_brush` and `DMView._continue_brush` call it
once per pointer sample (dm_view.py lines 477 and 509).  The embedding
counts the three kinds of side effects. -/

/-- The fog state shared by the two viewports, together with counters for
the side effects of `Application.update_fog`: DM-view refreshes (cheap,
local), player-view pushes (cross-viewport propagation) and
`save_fog_mask` calls (persistence). -/
structure FogSyncState where
  mask : GrayImg
  dm_refreshes : ℕ
  player_pushes : ℕ
  fog_saves : ℕ

namespace Application

/-- Embedding of `Application.update_fog(fog_mask)`: return unchanged when
no map is active; otherwise store the mask, refresh the DM view, push to the
player view, and — when a session manager exists — save the mask to disk.
Every call performs all of these; nothing is conditional on a stroke being
in progress. -/
def update_fog (has_active_map has_session_manager : Bool)
    (st : FogSyncState) (fog_mask : GrayImg) : FogSyncState :=
  if has_active_map then
    { mask := fog_mask,
      dm_refreshes := st.dm_refreshes + 1,
      player_pushes := st.player_pushes + 1,
      fog_saves := st.fog_saves + if has_session_manager then 1 else 0 }
  else st

/-- The `Application.update_fog` calls a brush stroke issues while the
pointer is still down: `_start_brush` ends with one call (dm_view.py line
477) and every `_continue_brush` sample ends with one call (line 509), each
passing the current in-memory mask.  `masks` is that call sequence. -/
def strokeUpdateCalls (has_session_manager : Bool) (st : FogSyncState)
    (masks : List GrayImg) : FogSyncState :=
  masks.foldl (fun acc m => update_fog true has_session_manager acc m) st

/-- Context for `Application.pan_map`: the active map's image dimensions
(map pixels) and the player-view canvas query `(pv_w, pv_h, scale)`, which
is `none` when `winfo_width`/`winfo_height` raise (the `except` path). -/
structure PanContext where
  img_w : ℕ
  img_h : ℕ
  player_viewport : Option (ℤ × ℤ × ℚ)

/-- Embedding of `Application.pan_map(dx, dy)` (app.py lines 464-512) acting
on the active map's `(pan_x, pan_y)`.  `has_active_map` models the
`get_active_map` guard and `has_image` the `active_map.id in
self._map_images` guard.  The delta is added first; the clamp runs only when
the image is cached, with the visible size falling back to the full image
unless the player canvas reports a real size and a positive scale. -/
def pan_map (ctx : PanContext) (has_active_map has_image : Bool)
    (pan_x pan_y dx dy : ℤ) : ℤ × ℤ :=
  if has_active_map then
    let px := pan_x + dx
    let py := pan_y + dy
    if has_image then
      let vp : ℤ × ℤ :=
        match ctx.player_viewport with
        | some (pv_w, pv_h, s) =>
          if 1 < pv_w ∧ 1 < pv_h ∧ 0 < s
          then (pyInt ((pv_w : ℚ) / s), pyInt ((pv_h : ℚ) / s))
          else ((ctx.img_w : ℤ), (ctx.img_h : ℤ))
        | none => ((ctx.img_w : ℤ), (ctx.img_h : ℤ))
      let max_pan_x := max 0 ((ctx.img_w : ℤ) - vp.1)
      let max_pan_y := max 0 ((ctx.img_h : ℤ) - vp.2)
      (max 0 (min px max_pan_x), max 0 (min py max_pan_y))
    else (px, py)
  else (pan_x, pan_y)

end Application

/-! ## Session model (models.py) -/

/-- Embedding of the `Map` dataclass (the fields JSON round-trips carry). -/
structure SessionMap where
  id : String
  name : String
  image_path : String
  fog_path : String
  tile_size_mm : ℚ
  tile_pixels : ℤ
  pan_x : ℤ
  pan_y : ℤ

/-- Embedding of the `Session` dataclass. -/
structure Session where
  name : String
  maps : List SessionMap
  active_map_index : ℤ

namespace Session

/-- Embedding of the `Session.active_map` property:
the map at `active_map_index` when `0 <= active_map_index < len(maps)`,
otherwise `None`. -/
def active_map (s : Session) : Option SessionMap :=
  if 0 ≤ s.active_map_index ∧ s.active_map_index < (s.maps.length : ℤ)
  then s.maps[s.active_map_index.toNat]?
  else none

/-- Embedding of `Session.remove_map(map_id)`: pop the first map whose id
matches, then pull `active_map_index` back to `max(0, len(maps) - 1)` when
it fell off the end; return whether a map was removed, with the resulting
session. -/
def remove_map (s : Session) (map_id : String) : Bool × Session :=
  match s.maps.findIdx? (fun m => m.id == map_id) with
  | some i =>
    let maps' := s.maps.eraseIdx i
    let idx' :=
      if (maps'.length : ℤ) ≤ s.active_map_index
      then max 0 ((maps'.length : ℤ) - 1)
      else s.active_map_index
    (true, { s with maps := maps', active_map_index := idx' })
  | none => (false, s)

end Session

/-! ## Concrete instances used by witnesses -/

/-- A concrete map record. -/
def sampleMapA : SessionMap :=
  ⟨"a", "A", "maps/a.png", "maps/a_fog.png", 254 / 10, 70, 0, 0⟩

/-- A second concrete map record. -/
def sampleMapB : SessionMap :=
  ⟨"b", "B", "maps/b.png", "maps/b_fog.png", 254 / 10, 70, 0, 0⟩

/-- A concrete two-map session. -/
def sampleSession : Session :=
  ⟨"demo", [sampleMapA, sampleMapB], 0⟩

/-- A concrete resampler pair used by witnesses: the surface resizer returns
an opaque constant image of the requested size; the mask resizer samples the
source's pixel (0, 0) everywhere, as a nearest-neighbour filter would on a
constant mask. -/
def sampleEnv : ResizeEnv :=
  ⟨fun _ a b => ⟨a, b, fun _ _ => ⟨9, 9, 9, 255⟩⟩,
   fun g a b => ⟨a, b, fun _ _ => g.px 0 0⟩⟩

/-- A concrete 2×2 opaque map surface. -/
def sampleSurface : Img := ⟨2, 2, fun _ _ => ⟨9, 9, 9, 255⟩⟩

/-- The all-hidden 2×2 fog mask. -/
def sampleFogHidden : GrayImg := ⟨2, 2, fun _ _ => 0⟩

/-- The all-revealed 2×2 fog mask. -/
def sampleFogRevealed : GrayImg := ⟨2, 2, fun _ _ => 255⟩

/-! ## Helper lemmas about the numeric primitives -/

theorem pyInt_intCast (z : ℤ) : pyInt (z : ℚ) = z := by
  simp [pyInt, Rat.num_intCast, Rat.den_intCast]

theorem pyInt_eq_of_eq_intCast {q : ℚ} {z : ℤ} (h : q = (z : ℚ)) : pyInt q = z :=
  h ▸ pyInt_intCast z

theorem pyInt_eq_floor {q : ℚ} (h : 0 ≤ q) : pyInt q = ⌊q⌋ := by
  rw [Rat.floor_def]
  exact Int.tdiv_eq_ediv (Rat.num_nonneg.mpr h) (Int.natCast_nonneg _)

theorem pyInt_neg (q : ℚ) : pyInt (-q) = -pyInt q := by
  simp [pyInt, Rat.neg_num, Rat.neg_den, Int.neg_tdiv]

theorem pyRound_natCast (n : ℕ) : pyRound (n : ℚ) = n := by
  simp [pyRound]

/-! ## C5 — `screen_to_map` semantics -/

/-- C5 (counterexample): the claim says `screen_to_map` floors
`(sx − offsetX)/scale` "including when (sx − offsetX) is negative", but
Python `int()` truncates toward zero: at `sx = −1`, `scale = 2`, zero pan
and offset, the code returns `0` while the claimed floor formula gives
`−1`. -/
theorem screen_to_map_not_floor_on_negative :
    screen_to_map (-1) 0 2 0 0 (0, 0) = (0, 0) ∧
    screenToMapSpec (-1) 0 2 0 0 (0, 0) = (-1, 0) ∧
    ((0 : ℤ), (0 : ℤ)) ≠ ((-1 : ℤ), (0 : ℤ)) := by
  refine ⟨?_, ?_, by decide⟩
  · simp only [screen_to_map]
    have h1 : ((((-1 : ℤ) - 0 : ℤ)) : ℚ) / 2 + ((0 : ℤ) : ℚ) = -(1 / 2) := by norm_num
    have h2 : ((((0 : ℤ) - 0 : ℤ)) : ℚ) / 2 + ((0 : ℤ) : ℚ) = ((0 : ℤ) : ℚ) := by norm_num
    rw [h1, h2, pyInt_neg, pyInt_intCast, pyInt_eq_floor (by norm_num)]
    norm_num
  · unfold screenToMapSpec
    norm_num

/-- C5 (amended): `screen_to_map` computes
`int((sx − offsetX)/scale + panX)` with Python `int()` truncating toward
zero; whenever that pre-truncation quantity is nonnegative (on each axis)
the result coincides with the claimed `floor((sx − offsetX)/scale) + panX`,
but for negative quantities truncation rounds toward zero instead of
flooring. -/
theorem screen_to_map_truncation (sx sy : ℤ) (scale : ℚ) (panx pany : ℤ)
    (off : ℤ × ℤ)
    (hx : 0 ≤ ((sx - off.1 : ℤ) : ℚ) / scale + (panx : ℚ))
    (hy : 0 ≤ ((sy - off.2 : ℤ) : ℚ) / scale + (pany : ℚ)) :
    screen_to_map sx sy scale panx pany off =
      screenToMapSpec sx sy scale panx pany off := by
  simp only [screen_to_map, screenToMapSpec]
  rw [pyInt_eq_floor hx, pyInt_eq_floor hy, Int.floor_add_int, Int.floor_add_int]

/-- Witness for `screen_to_map_truncation` at `sx = 5`, `sy = 3`,
`scale = 2`, pan `(1, 1)`, offset `(1, 1)`. -/
theorem screen_to_map_truncation_witness :
    screen_to_map 5 3 2 1 1 (1, 1) = (3, 2) := by
  rw [screen_to_map_truncation 5 3 2 1 1 (1, 1) (by norm_num) (by norm_num)]
  unfold screenToMapSpec
  norm_num

/-! ## C6 — round trip of the coordinate transforms -/

/-- C6: when the scale exactly divides the pixel offset on each axis (and
is positive), `map_to_screen` applied to `screen_to_map` reconstructs the
original screen coordinates within ±1 unit — in fact exactly. -/
theorem coordinate_roundtrip (sx sy : ℤ) (scale : ℚ) (panx pany : ℤ)
    (off : ℤ × ℤ) (hs : 0 < scale)
    (hx : ∃ k : ℤ, ((sx - off.1 : ℤ) : ℚ) = (k : ℚ) * scale)
    (hy : ∃ k : ℤ, ((sy - off.2 : ℤ) : ℚ) = (k : ℚ) * scale) :
    ((map_to_screen (screen_to_map sx sy scale panx pany off).1
        (screen_to_map sx sy scale panx pany off).2 scale panx pany off).1 - sx).natAbs ≤ 1 ∧
    ((map_to_screen (screen_to_map sx sy scale panx pany off).1
        (screen_to_map sx sy scale panx pany off).2 scale panx pany off).2 - sy).natAbs ≤ 1 := by
  obtain ⟨kx, hkx⟩ := hx
  obtain ⟨ky, hky⟩ := hy
  have hs0 : scale ≠ 0 := ne_of_gt hs
  have hmx : (screen_to_map sx sy scale panx pany off).1 = kx + panx := by
    simp only [screen_to_map]
    refine pyInt_eq_of_eq_intCast ?_
    rw [hkx, mul_div_assoc, div_self hs0, mul_one]
    push_cast
    ring
  have hmy : (screen_to_map sx sy scale panx pany off).2 = ky + pany := by
    simp only [screen_to_map]
    refine pyInt_eq_of_eq_intCast ?_
    rw [hky, mul_div_assoc, div_self hs0, mul_one]
    push_cast
    ring
  have hsx : (map_to_screen (screen_to_map sx sy scale panx pany off).1
      (screen_to_map sx sy scale panx pany off).2 scale panx pany off).1 = sx := by
    simp only [map_to_screen]
    refine pyInt_eq_of_eq_intCast ?_
    rw [hmx]
    have : (((kx + panx - panx : ℤ)) : ℚ) = (kx : ℚ) := by push_cast; ring
    rw [this, ← hkx]
    push_cast
    ring
  have hsy : (map_to_screen (screen_to_map sx sy scale panx pany off).1
      (screen_to_map sx sy scale panx pany off).2 scale panx pany off).2 = sy := by
    simp only [map_to_screen]
    refine pyInt_eq_of_eq_intCast ?_
    rw [hmy]
    have : (((ky + pany - pany : ℤ)) : ℚ) = (ky : ℚ) := by push_cast; ring
    rw [this, ← hky]
    push_cast
    ring
  rw [hsx, hsy]
  simp

/-- Witness for `coordinate_roundtrip` at `sx = 7`, `sy = 5`, `scale = 2`,
pan `(3, −2)`, offset `(3, 1)`. -/
theorem coordinate_roundtrip_witness :
    ((map_to_screen (screen_to_map 7 5 2 3 (-2) (3, 1)).1
        (screen_to_map 7 5 2 3 (-2) (3, 1)).2 2 3 (-2) (3, 1)).1 - 7).natAbs ≤ 1 ∧
    ((map_to_screen (screen_to_map 7 5 2 3 (-2) (3, 1)).1
        (screen_to_map 7 5 2 3 (-2) (3, 1)).2 2 3 (-2) (3, 1)).2 - 5).natAbs ≤ 1 :=
  coordinate_roundtrip 7 5 2 3 (-2) (3, 1) (by norm_num)
    ⟨2, by norm_num⟩ ⟨2, by norm_num⟩

/-! ## C8 — idempotence of `apply_brush` -/

/-- C8: applying `FogEditor.apply_brush` twice with identical centre,
radius and reveal flag yields a mask bitwise-identical to applying it
once: the second pass writes the same constant into the same pixels. -/
theorem apply_brush_idempotent (m : GrayImg) (x y radius : ℤ) (reveal : Bool) :
    FogEditor.apply_brush (FogEditor.apply_brush m x y radius reveal) x y radius reveal =
      FogEditor.apply_brush m x y radius reveal := by
  simp only [FogEditor.apply_brush, drawEllipse]
  refine GrayImg.ext rfl rfl ?_
  funext i j
  dsimp only
  by_cases h :
      i < m.w ∧ j < m.h ∧
        ((2 * (i : ℤ) - (x - radius + (x + radius))) * (y + radius - (y - radius))) ^ 2 +
            ((2 * (j : ℤ) - (y - radius + (y + radius))) * (x + radius - (x - radius))) ^ 2 ≤
          ((x + radius - (x - radius)) * (y + radius - (y - radius))) ^ 2
  · rw [if_pos h, if_pos h]
  · rw [if_neg h, if_neg h]

/-! ## C9 — fog edits preserve dimensions; reveal/hide fill completely -/

/-- C9: every fog edit operation returns a mask with the dimensions of its
input (drawing never resizes the raster, regardless of where the brush or
rectangle coordinates fall), and after `reveal_all` every in-bounds pixel is
255 while after `hide_all` every in-bounds pixel is 0. -/
theorem fog_edit_dims_and_fill (m : GrayImg) (x y radius : ℤ) (rv : Bool)
    (x1 y1 x2 y2 : ℤ) (rv' : Bool) (i j : ℕ) (hi : i < m.w) (hj : j < m.h) :
    ((FogEditor.apply_brush m x y radius rv).w = m.w ∧
      (FogEditor.apply_brush m x y radius rv).h = m.h) ∧
    ((FogEditor.apply_rectangle m x1 y1 x2 y2 rv').w = m.w ∧
      (FogEditor.apply_rectangle m x1 y1 x2 y2 rv').h = m.h) ∧
    ((FogEditor.reveal_all m).w = m.w ∧ (FogEditor.reveal_all m).h = m.h ∧
      (FogEditor.reveal_all m).px i j = 255) ∧
    ((FogEditor.hide_all m).w = m.w ∧ (FogEditor.hide_all m).h = m.h ∧
      (FogEditor.hide_all m).px i j = 0) := by
  have hcond : i < m.w ∧ j < m.h ∧ (0 : ℤ) ≤ (i : ℤ) ∧ (i : ℤ) ≤ (m.w : ℤ) ∧
      (0 : ℤ) ≤ (j : ℤ) ∧ (j : ℤ) ≤ (m.h : ℤ) :=
    ⟨hi, hj, Int.natCast_nonneg i, by exact_mod_cast hi.le,
      Int.natCast_nonneg j, by exact_mod_cast hj.le⟩
  refine ⟨⟨rfl, rfl⟩, ⟨rfl, rfl⟩, ⟨rfl, rfl, ?_⟩, ⟨rfl, rfl, ?_⟩⟩
  · simp only [FogEditor.reveal_all, drawRectangle]
    rw [if_pos hcond]
  · simp only [FogEditor.hide_all, drawRectangle]
    rw [if_pos hcond]

/-- Witness for `fog_edit_dims_and_fill` on a concrete 3×2 mask filled with
the value 7, at pixel (2, 1). -/
theorem fog_edit_dims_and_fill_witness :
    (FogEditor.reveal_all ⟨3, 2, fun _ _ => 7⟩).px 2 1 = 255 ∧
    (FogEditor.hide_all ⟨3, 2, fun _ _ => 7⟩).px 2 1 = 0 :=
  ⟨(fog_edit_dims_and_fill ⟨3, 2, fun _ _ => 7⟩ 0 0 1 true 0 0 1 1 true 2 1
      (by decide) (by decide)).2.2.1.2.2,
   (fog_edit_dims_and_fill ⟨3, 2, fun _ _ => 7⟩ 0 0 1 true 0 0 1 1 true 2 1
      (by decide) (by decide)).2.2.2.2.2⟩

/-! ## C10 — `Session.remove_map` safety -/

/-- Helper: `Session.active_map` finds a map whenever the index is within
bounds. -/
theorem active_map_isSome_of_bounds (t : Session)
    (h1 : 0 ≤ t.active_map_index)
    (h2 : t.active_map_index < (t.maps.length : ℤ)) :
    t.active_map.isSome = true := by
  rw [Session.active_map, if_pos ⟨h1, h2⟩]
  have hlt : t.active_map_index.toNat < t.maps.length := by omega
  simp [List.getElem?_eq_getElem hlt]

/-- C10: `Session.remove_map` returns `False` and leaves the session
untouched when no map matches the id; when a map is removed it returns
`True` and, provided the index was nonnegative beforehand (it starts at 0
and every mutation keeps it nonnegative), the resulting
`active_map_index` is `0` when the map list became empty and otherwise lies
in `[0, len − 1]`, so `active_map` finds a map. -/
theorem remove_map_safe (s : Session) (mid : String)
    (hidx : 0 ≤ s.active_map_index) :
    ((∀ m ∈ s.maps, m.id ≠ mid) → Session.remove_map s mid = (false, s)) ∧
    ((∃ m ∈ s.maps, m.id = mid) →
      (Session.remove_map s mid).1 = true ∧
      ((Session.remove_map s mid).2.maps.length = 0 →
        (Session.remove_map s mid).2.active_map_index = 0) ∧
      (0 < (Session.remove_map s mid).2.maps.length →
        0 ≤ (Session.remove_map s mid).2.active_map_index ∧
        (Session.remove_map s mid).2.active_map_index <
          ((Session.remove_map s mid).2.maps.length : ℤ) ∧
        ((Session.remove_map s mid).2.active_map).isSome = true)) := by
  constructor
  · intro hno
    have hnone : s.maps.findIdx? (fun m => m.id == mid) = none := by
      rw [List.findIdx?_eq_none_iff]
      intro m hm
      exact beq_eq_false_iff_ne.mpr (hno m hm)
    simp [Session.remove_map, hnone]
  · intro hex
    have hex' : ∃ m ∈ s.maps, (fun m : SessionMap => m.id == mid) m = true := by
      obtain ⟨m, hm, he⟩ := hex
      exact ⟨m, hm, by simp [he]⟩
    have hsome := List.findIdx?_eq_some_of_exists hex'
    set i := s.maps.findIdx (fun m => m.id == mid) with hidef
    have heq : Session.remove_map s mid =
        (true,
          { s with
            maps := s.maps.eraseIdx i,
            active_map_index :=
              (if ((s.maps.eraseIdx i).length : ℤ) ≤ s.active_map_index
               then max 0 (((s.maps.eraseIdx i).length : ℤ) - 1)
               else s.active_map_index) }) := by
      simp only [Session.remove_map, hsome]
    rw [heq]
    refine ⟨rfl, ?_, ?_⟩
    · intro h0
      dsimp only at h0 ⊢
      have h0' : ((s.maps.eraseIdx i).length : ℤ) = 0 := by exact_mod_cast h0
      rw [h0', if_pos hidx]
      decide
    · intro hpos
      dsimp only at hpos ⊢
      have hpos' : (0 : ℤ) < ((s.maps.eraseIdx i).length : ℤ) := by exact_mod_cast hpos
      by_cases hc : ((s.maps.eraseIdx i).length : ℤ) ≤ s.active_map_index
      · rw [if_pos hc]
        have hb1 : (0 : ℤ) ≤ max 0 (((s.maps.eraseIdx i).length : ℤ) - 1) :=
          le_max_left _ _
        have hb2 : max 0 (((s.maps.eraseIdx i).length : ℤ) - 1) <
            ((s.maps.eraseIdx i).length : ℤ) :=
          max_lt (by omega) (by omega)
        exact ⟨hb1, hb2, active_map_isSome_of_bounds _ hb1 hb2⟩
      · rw [if_neg hc]
        push_neg at hc
        exact ⟨hidx, hc, active_map_isSome_of_bounds _ hidx hc⟩

/-- Witness for `remove_map_safe`: removing map "b" from the concrete
two-map session succeeds and leaves a valid active index. -/
theorem remove_map_safe_witness :
    (Session.remove_map sampleSession "b").1 = true ∧
    0 ≤ (Session.remove_map sampleSession "b").2.active_map_index ∧
    ((Session.remove_map sampleSession "b").2.active_map).isSome = true := by
  have h := (remove_map_safe sampleSession "b" (by norm_num [sampleSession])).2
    ⟨sampleMapB, by simp [sampleSession], rfl⟩
  have hlen : 0 < (Session.remove_map sampleSession "b").2.maps.length := by
    decide
  exact ⟨h.1, (h.2.2 hlen).1, (h.2.2 hlen).2.2⟩

/-! ## C1 — fog propagation during a brush stroke -/

/-- C1 (code divergence): `Application.update_fog` — the only update path
`Application` offers, and the one `DMView._start_brush` and
`DMView._continue_brush` invoke once per pointer sample — unconditionally
pushes the mask to the player view and saves it to disk on every call.
After the press plus drag samples of a stroke (and before any release
handling), the player view has been pushed and the mask saved once per
sample, not zero times; nothing defers propagation to the end of the
stroke. -/
theorem stroke_samples_propagate_each_time (has_sm : Bool)
    (st : FogSyncState) (masks : List GrayImg) :
    (Application.strokeUpdateCalls has_sm st masks).player_pushes =
      st.player_pushes + masks.length ∧
    (Application.strokeUpdateCalls has_sm st masks).fog_saves =
      st.fog_saves + (if has_sm then masks.length else 0) ∧
    (Application.strokeUpdateCalls has_sm st masks).dm_refreshes =
      st.dm_refreshes + masks.length := by
  induction masks generalizing st with
  | nil => simp [Application.strokeUpdateCalls]
  | cons m ms ih =>
    rcases ih (Application.update_fog true has_sm st m) with ⟨h1, h2, h3⟩
    have hc : Application.strokeUpdateCalls has_sm st (m :: ms) =
        Application.strokeUpdateCalls has_sm
          (Application.update_fog true has_sm st m) ms := rfl
    rw [hc, h1, h2, h3]
    cases has_sm <;> simp [Application.update_fog] <;> omega

/-! ## C2 — the render cache is never populated nor consulted -/

/-- C2 (code divergence): `MapRenderer.render` returns the renderer state
unchanged — in particular it never assigns `cached_render` or
`cache_valid` — and its output does not depend on either cache field, so no
cached bitmap is ever stored or reused.  Moreover no other method ever
writes `cached_render`: it stays `none` from `init` through `set_map`,
`set_scale` and `invalidate_cache`. -/
theorem render_never_touches_cache (env : ResizeEnv) (r : MapRenderer)
    (vp : ℕ × ℕ) (pan_x pan_y : ℤ) (dm : Bool) :
    (MapRenderer.render env r vp pan_x pan_y dm).2 = r ∧
    (∀ b c,
      (MapRenderer.render env { r with cache_valid := b, cached_render := c }
          vp pan_x pan_y dm).1 =
        (MapRenderer.render env r vp pan_x pan_y dm).1) ∧
    MapRenderer.init.cached_render = none ∧
    (∀ mi f, (MapRenderer.set_map r mi f).cached_render = r.cached_render) ∧
    (∀ sc, (MapRenderer.set_scale r sc).cached_render = r.cached_render) ∧
    (MapRenderer.invalidate_cache r).cached_render = r.cached_render := by
  obtain ⟨mi, fm, sc, cr, cv⟩ := r
  refine ⟨?_, ?_, rfl, fun _ _ => rfl, ?_, rfl⟩
  · cases mi <;> cases fm <;> rfl
  · intro b c
    cases mi <;> cases fm <;> rfl
  · intro sc'
    simp only [MapRenderer.set_scale]
    split <;> rfl

/-! ## C4 — `pan_map` clamping -/

/-- C4: with an active map whose image is loaded, `pan_map` adds the delta
to the pan, computes the visible size as the player viewport's pixel size
divided by the player view's own scale (when the canvas reports a real size
and a positive scale), and clamps each axis to
`[0, max(0, mapDimension − visibleDimension)]`; when the player viewport
size is unknown the whole map counts as visible and the pan clamps to 0. -/
theorem pan_map_clamps (ctx : Application.PanContext) (pan_x pan_y dx dy : ℤ)
    (pv_w pv_h : ℤ) (s : ℚ)
    (hpv : ctx.player_viewport = some (pv_w, pv_h, s))
    (hw : 1 < pv_w) (hh : 1 < pv_h) (hs : 0 < s) :
    Application.pan_map ctx true true pan_x pan_y dx dy =
      (max 0 (min (pan_x + dx) (max 0 ((ctx.img_w : ℤ) - pyInt ((pv_w : ℚ) / s)))),
       max 0 (min (pan_y + dy) (max 0 ((ctx.img_h : ℤ) - pyInt ((pv_h : ℚ) / s))))) ∧
    (∀ ctx' : Application.PanContext, ctx'.player_viewport = none →
      Application.pan_map ctx' true true pan_x pan_y dx dy = (0, 0)) := by
  constructor
  · simp only [Application.pan_map, hpv, if_true]
    rw [if_pos (show 1 < pv_w ∧ 1 < pv_h ∧ 0 < s from ⟨hw, hh, hs⟩)]
  · intro ctx' h'
    simp only [Application.pan_map, h', if_true]
    have h1 : (ctx'.img_w : ℤ) - (ctx'.img_w : ℤ) = 0 := by ring
    have h2 : (ctx'.img_h : ℤ) - (ctx'.img_h : ℤ) = 0 := by ring
    rw [h1, h2]
    refine Prod.ext ?_ ?_
    · dsimp only
      simp only [sup_idem]
      exact sup_eq_left.mpr inf_le_right
    · dsimp only
      simp only [sup_idem]
      exact sup_eq_left.mpr inf_le_right

/-- Witness for `pan_map_clamps`: the claim's concrete instance — map
1000×800, player viewport 400×300 at scale 1, `pan_map(+10000, 0)` from
pan (0,0) clamps the horizontal pan to 600. -/
theorem pan_map_clamps_witness :
    Application.pan_map ⟨1000, 800, some (400, 300, 1)⟩ true true 0 0 10000 0 =
      (600, 0) := by
  rw [(pan_map_clamps ⟨1000, 800, some (400, 300, 1)⟩ 0 0 10000 0 400 300 1 rfl
    (by norm_num) (by norm_num) (by norm_num)).1]
  have h1 : pyInt (((400 : ℤ) : ℚ) / 1) = 400 := pyInt_eq_of_eq_intCast (by norm_num)
  have h2 : pyInt (((300 : ℤ) : ℚ) / 1) = 300 := pyInt_eq_of_eq_intCast (by norm_num)
  rw [h1, h2]
  decide

/-! ## C3 — brush interpolation -/

/-- Helper: the squared drag distance is below the square of twice the step
times the stamp count computed by `_continue_brush`, so the underlying
interpolation spacing `d / steps` stays below `2 · step`. -/
theorem sqrt_div_bound (d2 step : ℕ) (hstep : 0 < step) :
    d2 < (2 * step * max 1 (Nat.sqrt d2 / step)) * (2 * step * max 1 (Nat.sqrt d2 / step)) := by
  set n := Nat.sqrt d2 with hn
  have hlt : d2 < (n + 1) * (n + 1) := Nat.lt_succ_sqrt d2
  rcases Nat.eq_zero_or_pos (n / step) with hk | hk
  · have h1 : n < step := by
      rw [Nat.div_eq_zero_iff hstep] at hk
      omega
    have hmax : max 1 (n / step) = 1 := by rw [hk]; decide
    rw [hmax]
    have h2 : n + 1 ≤ step := h1
    calc d2 < (n + 1) * (n + 1) := hlt
      _ ≤ (2 * step * 1) * (2 * step * 1) := by
          refine Nat.mul_le_mul ?_ ?_ <;> omega
  · have hmax : max 1 (n / step) = n / step := max_eq_right hk
    rw [hmax]
    have h2 : n < (n / step + 1) * step := (Nat.div_lt_iff_lt_mul hstep).mp (Nat.lt_succ_self _)
    have h4 : n / step + 1 ≤ 2 * (n / step) := by omega
    calc d2 < (n + 1) * (n + 1) := hlt
      _ ≤ ((n / step + 1) * step) * ((n / step + 1) * step) := Nat.mul_le_mul h2 h2
      _ ≤ ((2 * (n / step)) * step) * ((2 * (n / step)) * step) :=
          Nat.mul_le_mul (Nat.mul_le_mul_right step h4) (Nat.mul_le_mul_right step h4)
      _ = (2 * step * (n / step)) * (2 * step * (n / step)) := by ring

/-- C3 (counterexample): the claim computes the stamp count as
`max(1, round(d/step))`, but the code truncates: `max(1, int(d/step))`.
With last position (0,0), current position (9,0) and radius 10 (so
`step = 5`, `d = 9`), the claimed formula gives 2 stamps while the code
produces the single stamp `(9, 0)` — which also sits 9 px from the last
position, farther than `step`. -/
theorem continue_brush_truncates_not_rounds :
    continueBrushStamps 0 0 9 0 10 = [(9, 0)] ∧
    specStepCount 9 5 = 2 ∧
    (continueBrushStamps 0 0 9 0 10).length ≠ specStepCount 9 5 := by
  have h9 : Nat.sqrt 81 = 9 := (Nat.eq_sqrt.mpr ⟨by norm_num, by norm_num⟩).symm
  have hstamps : continueBrushStamps 0 0 9 0 10 = [(9, 0)] := by
    have e1 : (((9 : ℤ) - 0) ^ 2 + ((0 : ℤ) - 0) ^ 2).toNat = 81 := by
      rw [show ((9 : ℤ) - 0) ^ 2 + ((0 : ℤ) - 0) ^ 2 = (81 : ℤ) by norm_num]
      decide
    have e2 : max 1 (10 / 2 : ℕ) = 5 := by decide
    simp only [continueBrushStamps, e1, e2, h9]
    rw [if_neg (by decide : ¬(81 : ℕ) = 0)]
    have e4 : max 1 (9 / 5 : ℕ) = 1 := by decide
    rw [e4, show List.range 1 = [0] from rfl, List.map_cons, List.map_nil]
    refine congrArg (fun p => [p]) (Prod.ext ?_ ?_)
    · exact pyInt_eq_of_eq_intCast (by push_cast; norm_num)
    · exact pyInt_eq_of_eq_intCast (by push_cast; norm_num)
  have hspec : specStepCount 9 5 = 2 := by
    have : round ((9 : ℚ) / 5) = 2 := by rw [round_eq]; norm_num
    simp [specStepCount, this]
  refine ⟨hstamps, hspec, ?_⟩
  rw [hstamps, hspec]
  decide

/-- C3 (amended): on a continued brush sample at positive distance,
`step = max(1, r // 2)` and `stepCount = max(1, int(d / step))`
(truncation, not rounding); the brush is stamped at `stepCount`
interpolated points whose last one is exactly the current position, and the
squared drag distance is below `(2·step·stepCount)²`, i.e. the underlying
interpolation spacing `d / stepCount` is below `2·step` (claimed: `step`),
which still forces overlapping stamps for `r ≥ 2`. -/
theorem continue_brush_interpolation (last_x last_y map_x map_y : ℤ) (r : ℕ)
    (hne : ¬(map_x = last_x ∧ map_y = last_y)) :
    (continueBrushStamps last_x last_y map_x map_y r).length =
      max 1 (Nat.sqrt ((map_x - last_x) ^ 2 + (map_y - last_y) ^ 2).toNat / max 1 (r / 2)) ∧
    (continueBrushStamps last_x last_y map_x map_y r).getLast? = some (map_x, map_y) ∧
    (map_x - last_x) ^ 2 + (map_y - last_y) ^ 2 <
      ((2 * max 1 (r / 2) *
          max 1 (Nat.sqrt ((map_x - last_x) ^ 2 + (map_y - last_y) ^ 2).toNat / max 1 (r / 2)) : ℕ) : ℤ) ^ 2 := by
  set dx := map_x - last_x with hdx
  set dy := map_y - last_y with hdy
  have hne' : dx ≠ 0 ∨ dy ≠ 0 := by omega
  have hpos : 0 < dx ^ 2 + dy ^ 2 := by
    rcases hne' with h | h
    · exact add_pos_of_pos_of_nonneg (pow_two_pos_of_ne_zero h) (sq_nonneg dy)
    · exact add_pos_of_nonneg_of_pos (sq_nonneg dx) (pow_two_pos_of_ne_zero h)
  have htoNat : (((dx ^ 2 + dy ^ 2).toNat : ℤ)) = dx ^ 2 + dy ^ 2 :=
    Int.toNat_of_nonneg (by positivity)
  have hd2ne : (dx ^ 2 + dy ^ 2).toNat ≠ 0 := by omega
  set step := max 1 (r / 2) with hstepdef
  have hstep : 0 < step := lt_of_lt_of_le one_pos (le_max_left 1 _)
  set steps := max 1 (Nat.sqrt (dx ^ 2 + dy ^ 2).toNat / step) with hstepsdef
  have hsteps : 0 < steps := lt_of_lt_of_le one_pos (le_max_left 1 _)
  have hunfold : continueBrushStamps last_x last_y map_x map_y r =
      (List.range steps).map fun i =>
        (pyInt ((last_x : ℚ) + (dx : ℚ) * ((i + 1 : ℕ) : ℚ) / (steps : ℚ)),
         pyInt ((last_y : ℚ) + (dy : ℚ) * ((i + 1 : ℕ) : ℚ) / (steps : ℚ))) := by
    simp only [continueBrushStamps, ← hdx, ← hdy, ← hstepdef, ← hstepsdef]
    rw [if_neg hd2ne]
  refine ⟨?_, ?_, ?_⟩
  · rw [hunfold]
    simp
  · rw [hunfold]
    obtain ⟨k, hk⟩ : ∃ k, steps = k + 1 := ⟨steps - 1, by omega⟩
    rw [hk, List.range_succ, List.map_append]
    simp only [List.map_cons, List.map_nil, List.getLast?_concat]
    have hcast : ((k + 1 : ℕ) : ℚ) ≠ 0 := Nat.cast_ne_zero.mpr (Nat.succ_ne_zero k)
    refine congrArg some (Prod.ext ?_ ?_)
    · refine pyInt_eq_of_eq_intCast ?_
      rw [mul_div_assoc, div_self hcast, mul_one, hdx]
      push_cast
      ring
    · refine pyInt_eq_of_eq_intCast ?_
      rw [mul_div_assoc, div_self hcast, mul_one, hdy]
      push_cast
      ring
  · have hb := sqrt_div_bound (dx ^ 2 + dy ^ 2).toNat step hstep
    rw [← hstepsdef] at hb
    have hb' : (((dx ^ 2 + dy ^ 2).toNat : ℤ)) <
        ((2 * step * steps : ℕ) : ℤ) ^ 2 := by
      have hsq : ((2 * step * steps : ℕ) : ℤ) ^ 2 =
          (((2 * step * steps) * (2 * step * steps) : ℕ) : ℤ) := by
        push_cast
        ring
      rw [hsq]
      exact_mod_cast hb
    rw [htoNat] at hb'
    exact hb'

/-- Witness for `continue_brush_interpolation`: the claim's own instance —
last (0,0), current (100,0), radius 10 gives step 5, exactly 20 stamps, the
last of which is (100,0), with squared distance 10000 below
`(2·5·20)² = 40000`. -/
theorem continue_brush_interpolation_witness :
    (continueBrushStamps 0 0 100 0 10).length = 20 ∧
    (continueBrushStamps 0 0 100 0 10).getLast? = some (100, 0) ∧
    ((100 : ℤ) - 0) ^ 2 + ((0 : ℤ) - 0) ^ 2 < ((2 * 5 * 20 : ℕ) : ℤ) ^ 2 := by
  have h := continue_brush_interpolation 0 0 100 0 10 (by omega)
  have hsq : Nat.sqrt 10000 = 100 := (Nat.eq_sqrt.mpr ⟨by norm_num, by norm_num⟩).symm
  have harg : (((100 : ℤ) - 0) ^ 2 + ((0 : ℤ) - 0) ^ 2).toNat = 10000 := by
    rw [show ((100 : ℤ) - 0) ^ 2 + ((0 : ℤ) - 0) ^ 2 = (10000 : ℤ) by norm_num]
    decide
  rcases h with ⟨h1, h2, h3⟩
  rw [harg, hsq] at h1 h3
  refine ⟨?_, h2, ?_⟩
  · rw [h1]
    decide
  · rw [show 2 * max 1 (10 / 2 : ℕ) * max 1 (100 / max 1 (10 / 2 : ℕ)) =
      (2 * 5 * 20 : ℕ) by decide] at h3
    exact h3

/-! ## C7 — render output under the two extreme masks -/

/-- Helper: compositing a fully opaque black source pixel over anything
yields the opaque black pixel. -/
theorem compositePixel_opaque_src (d : Pixel) :
    compositePixel d ⟨0, 0, 0, 255⟩ = ⟨0, 0, 0, 255⟩ := by
  simp only [compositePixel]
  norm_num [pyRound, Int.toNat_ofNat]
  decide

/-- Helper: compositing a fully transparent source pixel over an opaque
pixel leaves the opaque pixel unchanged. -/
theorem compositePixel_transparent_src (d : Pixel) (hd : d.a = 255) :
    compositePixel d ⟨0, 0, 0, 0⟩ = d := by
  simp only [compositePixel, hd]
  norm_num [pyRound, Int.toNat_ofNat]
  refine Pixel.ext ?_ ?_ ?_ ?_ <;> simp [hd]

/-- Helper: when the viewport fits inside the scaled image and the scaled
pan is nonnegative, the crop / centre / paste tail reduces to cropping the
viewport-sized window at the scaled pan and pasting it at the origin. -/
theorem assembleFrame_eq (img : Img) (W H vw vh : ℕ) (l0 t0 : ℤ)
    (hvw : 0 < vw) (hvh : 0 < vh) (hl : 0 ≤ l0) (ht : 0 ≤ t0)
    (hw : l0 + (vw : ℤ) ≤ (W : ℤ)) (hh : t0 + (vh : ℤ) ≤ (H : ℤ)) :
    MapRenderer.assembleFrame img W H vw vh l0 t0 =
      some (pasteImg (newRGBA vw vh ⟨30, 30, 30, 255⟩)
        (cropImg img l0 t0 (l0 + (vw : ℤ)) (t0 + (vh : ℤ))) 0 0) := by
  have hr : min (l0 + (vw : ℤ)) (W : ℤ) = l0 + (vw : ℤ) := min_eq_left hw
  have hb : min (t0 + (vh : ℤ)) (H : ℤ) = t0 + (vh : ℤ) := min_eq_left hh
  have hleft : max 0 (min l0 ((W : ℤ) - 1)) = l0 := by
    rw [min_eq_left (by omega), max_eq_right hl]
  have htop : max 0 (min t0 ((H : ℤ) - 1)) = t0 := by
    rw [min_eq_left (by omega), max_eq_right ht]
  have hcw : (cropImg img l0 t0 (l0 + (vw : ℤ)) (t0 + (vh : ℤ))).w = vw := by
    simp only [cropImg]
    omega
  have hch : (cropImg img l0 t0 (l0 + (vw : ℤ)) (t0 + (vh : ℤ))).h = vh := by
    simp only [cropImg]
    omega
  have hWvw : ¬(W < vw) := by omega
  have hHvh : ¬(H < vh) := by omega
  simp only [MapRenderer.assembleFrame, hr, hb, hleft, htop]
  rw [if_neg (by omega : ¬(l0 + (vw : ℤ) ≤ l0 ∨ t0 + (vh : ℤ) ≤ t0))]
  rw [hcw, hch, if_neg (lt_irrefl vw), if_neg (lt_irrefl vh),
    if_neg hWvw, if_neg hWvw, if_neg hWvw, if_neg hWvw,
    if_neg hHvh, if_neg hHvh]

/-- C7: in presentation mode (`is_dm_view = false`), with the viewport
inside the scaled map, a fully hidden mask (all 0) renders as the fully
opaque black pixel `(0, 0, 0, 255)` at every viewport pixel, and a fully
revealed mask (all 255) renders pixel-identically to the plain scaled and
cropped map surface (`plainScaledCrop`), with no fog contribution.  The
resampling filters are quantified: the mask resampler must read source
pixels (as NEAREST does) and the resampled surface must be opaque. -/
theorem render_extreme_masks (env : ResizeEnv) (map_image : Img)
    (fog0 fog255 : GrayImg) (scale : ℚ) (vw vh : ℕ) (pan_x pan_y : ℤ)
    (hopq : ∀ i j, ((env.resizeImage map_image (MapRenderer.scaledDim map_image.w scale)
        (MapRenderer.scaledDim map_image.h scale)).px i j).a = 255)
    (hnear : ∀ (g : GrayImg) (a b i j : ℕ), ∃ si sj, (env.resizeMask g a b).px i j = g.px si sj)
    (h0 : ∀ i j, fog0.px i j = 0)
    (h255 : ∀ i j, fog255.px i j = 255)
    (hvw : 0 < vw) (hvh : 0 < vh)
    (hpx : 0 ≤ pyInt ((pan_x : ℚ) * scale))
    (hpy : 0 ≤ pyInt ((pan_y : ℚ) * scale))
    (hfw : pyInt ((pan_x : ℚ) * scale) + (vw : ℤ) ≤
      (MapRenderer.scaledDim map_image.w scale : ℤ))
    (hfh : pyInt ((pan_y : ℚ) * scale) + (vh : ℤ) ≤
      (MapRenderer.scaledDim map_image.h scale : ℤ)) :
    (∃ out, MapRenderer.renderCore env map_image fog0 scale (vw, vh) pan_x pan_y false =
        some out ∧
      out.w = vw ∧ out.h = vh ∧
      ∀ i j, i < vw → j < vh → out.px i j = ⟨0, 0, 0, 255⟩) ∧
    MapRenderer.renderCore env map_image fog255 scale (vw, vh) pan_x pan_y false =
      MapRenderer.plainScaledCrop env map_image scale (vw, vh) pan_x pan_y := by
  set W := MapRenderer.scaledDim map_image.w scale with hW
  set H := MapRenderer.scaledDim map_image.h scale with hH
  set l0 := pyInt ((pan_x : ℚ) * scale) with hl0
  set t0 := pyInt ((pan_y : ℚ) * scale) with ht0
  have hrc : ∀ f : GrayImg,
      MapRenderer.renderCore env map_image f scale (vw, vh) pan_x pan_y false =
        MapRenderer.assembleFrame
          (alphaComposite (env.resizeImage map_image W H)
            ⟨W, H, fun i j => ⟨0, 0, 0, (255 - (env.resizeMask f W H).px i j) * 255 / 255⟩⟩)
          W H vw vh l0 t0 := fun _ => rfl
  constructor
  · -- all-hidden mask: every composited pixel is opaque black
    have hblack : ∀ i j,
        (alphaComposite (env.resizeImage map_image W H)
          ⟨W, H, fun i j => ⟨0, 0, 0, (255 - (env.resizeMask fog0 W H).px i j) * 255 / 255⟩⟩).px i j =
          ⟨0, 0, 0, 255⟩ := by
      intro i j
      obtain ⟨si, sj, hs⟩ := hnear fog0 W H i j
      simp only [alphaComposite, hs, h0]
      exact compositePixel_opaque_src _
    rw [hrc fog0, assembleFrame_eq _ W H vw vh l0 t0 hvw hvh hpx hpy hfw hfh]
    refine ⟨_, rfl, rfl, rfl, ?_⟩
    intro i j hi hj
    simp only [pasteImg, cropImg, newRGBA]
    split
    · exact hblack _ _
    · exfalso
      omega
  · -- all-revealed mask: the fog layer is fully transparent
    have hsame :
        (alphaComposite (env.resizeImage map_image W H)
          ⟨W, H, fun i j => ⟨0, 0, 0, (255 - (env.resizeMask fog255 W H).px i j) * 255 / 255⟩⟩) =
          env.resizeImage map_image W H := by
      refine Img.ext rfl rfl ?_
      funext i j
      obtain ⟨si, sj, hs⟩ := hnear fog255 W H i j
      simp only [alphaComposite, hs, h255]
      exact compositePixel_transparent_src _ (hopq i j)
    rw [hrc fog255, hsame]
    rfl

/-- Witness for `render_extreme_masks`: the concrete 2×2 surface with the
constant resamplers, scale 1, a 1×1 viewport and zero pan. -/
theorem render_extreme_masks_witness :
    (MapRenderer.renderCore sampleEnv sampleSurface sampleFogHidden 1 (1, 1) 0 0 false).isSome
      = true ∧
    MapRenderer.renderCore sampleEnv sampleSurface sampleFogRevealed 1 (1, 1) 0 0 false =
      MapRenderer.plainScaledCrop sampleEnv sampleSurface 1 (1, 1) 0 0 := by
  have hsd : MapRenderer.scaledDim sampleSurface.w 1 = 2 := by
    have : ((sampleSurface.w : ℚ)) * 1 = ((2 : ℤ) : ℚ) := by norm_num [sampleSurface]
    rw [MapRenderer.scaledDim, pyInt_eq_of_eq_intCast this]
    rfl
  have hsd' : MapRenderer.scaledDim sampleSurface.h 1 = 2 := by
    have : ((sampleSurface.h : ℚ)) * 1 = ((2 : ℤ) : ℚ) := by norm_num [sampleSurface]
    rw [MapRenderer.scaledDim, pyInt_eq_of_eq_intCast this]
    rfl
  have hp0 : pyInt (((0 : ℤ) : ℚ) * 1) = 0 := pyInt_eq_of_eq_intCast (by norm_num)
  have h := render_extreme_masks sampleEnv sampleSurface sampleFogHidden sampleFogRevealed
    1 1 1 0 0
    (fun i j => rfl) (fun g a b i j => ⟨0, 0, rfl⟩) (fun i j => rfl) (fun i j => rfl)
    (by norm_num) (by norm_num)
    (by rw [hp0]) (by rw [hp0])
    (by rw [hp0, hsd]; norm_num) (by rw [hp0, hsd']; norm_num)
  obtain ⟨⟨out, hout, -, -, -⟩, hb⟩ := h
  refine ⟨?_, hb⟩
  rw [hout]
  rfl

end DMView
